import Mathlib

/-!
Shallow embedding of the DFM PDF financial-statement parser
(`src/parsers/pdf_financials.py` and `src/parsers/common.py`) together
with theorems settling the specification claims.

Conventions of the embedding:
* Python `float` values are modelled as `ℚ` (all values flowing through the
  parser are finite decimals; binary floating-point rounding is abstracted).
* Python strings are modelled as `String` / `List Char`; the regular
  expressions of the source are implemented as explicit character scanners
  with the same matching semantics (leftmost match, greedy quantifiers,
  non-overlapping `findall`).  `\s` and `str.strip` are modelled over the
  ASCII whitespace characters; `\w` over ASCII alphanumerics and `_`.
* Python dicts keyed by metric name are modelled as association lists with
  dict semantics: one binding per key, in-place update, append of new keys.
* Formatted output strings (audit confidence tags, warning messages, display
  items) are modelled as structured records carrying exactly the data the
  Python f-strings interpolate.
* The pdfplumber document handle is modelled as `Option (List Page)`:
  `none` is a source that cannot be opened (pdfplumber raises), `some pages`
  the extracted per-page text and tables.
-/

namespace DFM

/-- ASCII whitespace, the characters matched by Python `\s` and stripped by
`str.strip` for the documents in scope. -/
def isPySpace (c : Char) : Bool :=
  c = ' ' || c = '\t' || c = '\n' || c = '\r' || c = '\x0b' || c = '\x0c'

/-- Python `\w`: ASCII letters, digits and underscore. -/
def isWordChar (c : Char) : Bool :=
  c.isAlpha || c.isDigit || c = '_'

/-- Python `str.strip()`. -/
def pyStrip (l : List Char) : List Char :=
  ((l.dropWhile isPySpace).reverse.dropWhile isPySpace).reverse

/-- Python `str.rstrip()`. -/
def pyRstrip (l : List Char) : List Char :=
  (l.reverse.dropWhile isPySpace).reverse

/-- Python `str.lower()` (ASCII scope). -/
def pyLower (l : List Char) : List Char :=
  l.map Char.toLower

/-- Boolean prefix test on character lists. -/
def isPrefixOfB : List Char → List Char → Bool
  | [], _ => true
  | _ :: _, [] => false
  | a :: as, b :: bs => a == b && isPrefixOfB as bs

/-- Python `sub in hay` for strings. -/
def containsSub (pat hay : List Char) : Bool :=
  if isPrefixOfB pat hay then true
  else
    match hay with
    | [] => false
    | _ :: t => containsSub pat t

/-- Python `hay.find(pat)` (leftmost index, `none` for -1). -/
def indexOfSub (pat hay : List Char) : Option Nat :=
  if isPrefixOfB pat hay then some 0
  else
    match hay with
    | [] => none
    | _ :: t => (indexOfSub pat t).map (· + 1)

/-- Numeric value of a list of decimal digit characters. -/
def natOfDigits (l : List Char) : Nat :=
  l.foldl (fun a c => 10 * a + (c.toNat - '0'.toNat)) 0

/-- Python `text.split("\n")` (auxiliary, fueled; fuel is bounded by the
text length, which the wrapper supplies). -/
def splitNlF : Nat → List Char → List (List Char)
  | 0, l => [l]
  | fuel + 1, l =>
    match l.span (fun c => !(c = '\n')) with
    | (pre, []) => [pre]
    | (pre, _ :: rest) => pre :: splitNlF fuel rest

/-- Python `text.split("\n")`. -/
def splitNl (l : List Char) : List (List Char) :=
  splitNlF (l.length + 1) l

/-- Python `str.split()` (split on whitespace runs, no empty words;
auxiliary, fueled). -/
def pySplitWsF : Nat → List Char → List (List Char)
  | 0, _ => []
  | fuel + 1, l =>
    match l.dropWhile isPySpace with
    | [] => []
    | c :: rest =>
      match (c :: rest).span (fun d => !isPySpace d) with
      | (w, rest2) => w :: pySplitWsF fuel rest2

/-- Python `str.split()`. -/
def pySplitWs (l : List Char) : List (List Char) :=
  pySplitWsF (l.length + 1) l

/-!  `parse_number` from `src/parsers/common.py`. -/

/-- The `EMPTY_TOKENS` set of `common.py`. -/
def EMPTY_TOKENS : List (List Char) :=
  [[], ['-'], ['–'], ['—'], ['n', 'a'], ['n', '/', 'a']]

/-- Leftmost match of `-?\d+(?:\.\d+)?` (the final number search inside
`parse_number`), returned as a rational. -/
def searchSignedNumber : List Char → Option ℚ
  | [] => none
  | '-' :: rest =>
    match rest with
    | d :: _ =>
      if d.isDigit then
        match rest.span Char.isDigit with
        | (ds, rest1) =>
          match rest1 with
          | '.' :: f :: fr =>
            if f.isDigit then
              match (f :: fr).span Char.isDigit with
              | (fds, _) =>
                some (-((natOfDigits ds : ℚ) + (natOfDigits fds : ℚ) / 10 ^ fds.length))
            else some (-(natOfDigits ds : ℚ))
          | _ => some (-(natOfDigits ds : ℚ))
      else searchSignedNumber rest
    | [] => none
  | c :: rest =>
    if c.isDigit then
      match (c :: rest).span Char.isDigit with
      | (ds, rest1) =>
        match rest1 with
        | '.' :: f :: fr =>
          if f.isDigit then
            match (f :: fr).span Char.isDigit with
            | (fds, _) =>
              some ((natOfDigits ds : ℚ) + (natOfDigits fds : ℚ) / 10 ^ fds.length)
          else some (natOfDigits ds : ℚ)
        | _ => some (natOfDigits ds : ℚ)
    else searchSignedNumber rest

/-- `parse_number` of `common.py` on a string value (the `None` input case is
handled by the callers' `Option.bind`). -/
def parseNumberL (l : List Char) : Option ℚ :=
  let text0 := pyStrip l
  if text0 = [] then none
  else
    let lower := pyStrip (pyLower text0)
    if lower ∈ EMPTY_TOKENS then none
    else
      let text1 := text0.filter (fun c => !(c = ',' || c = ' '))
      if text1.all (fun c => c = '(' || c = ')' || c = '-' || c = '–' || c = '—' || isPySpace c) then none
      else
        let neg := text1.head? = some '(' && text1.getLast? = some ')'
        let text2 := if neg then (text1.drop 1).dropLast else text1
        let text3 := text2.map (fun c => if c = '–' || c = '—' then '-' else c)
        match searchSignedNumber text3 with
        | none => none
        | some q => some (if neg then -|q| else q)

/-- `parse_number` on a `String`. -/
def parseNumber (s : String) : Option ℚ :=
  parseNumberL s.toList

/-- `parse_number` applied to a nullable table cell. -/
def parseNumberCell (c : Option String) : Option ℚ :=
  match c with
  | none => none
  | some s => parseNumber s

/-! `_NUM_RE = -?\(?\d[\d,]*\)?` and its `findall`. -/

/-- Body of a `_NUM_RE` match once the optional `-` and `(` are consumed:
a digit, a greedy run of digits and commas, an optional `)`.  Returns the
matched characters and the remainder. -/
def numBody : List Char → Option (List Char × List Char)
  | [] => none
  | c :: rest =>
    if c.isDigit then
      match rest.span (fun d => d.isDigit || d = ',') with
      | (run, rest1) =>
        match rest1 with
        | ')' :: rest2 => some (c :: run ++ [')'], rest2)
        | _ => some (c :: run, rest1)
    else none

/-- `_NUM_RE` match anchored at the current position (the optional leading
`-` and `(` never backtrack successfully, so greedy consumption is exact). -/
def numMatchAt (l : List Char) : Option (List Char × List Char) :=
  match l with
  | '-' :: '(' :: rest => (numBody rest).map (fun p => ('-' :: '(' :: p.1, p.2))
  | '-' :: rest => (numBody rest).map (fun p => ('-' :: p.1, p.2))
  | '(' :: rest => (numBody rest).map (fun p => ('(' :: p.1, p.2))
  | l => numBody l

/-- `_NUM_RE.findall`: non-overlapping leftmost matches (auxiliary, fueled;
every step consumes at least one character, so the wrapper's fuel suffices). -/
def findNumTokensF : Nat → List Char → List (List Char)
  | 0, _ => []
  | _ + 1, [] => []
  | fuel + 1, c :: rest =>
    match numMatchAt (c :: rest) with
    | some (tok, rest1) => tok :: findNumTokensF fuel rest1
    | none => findNumTokensF fuel rest

/-- `_NUM_RE.findall` over a line. -/
def findNumTokens (l : List Char) : List (List Char) :=
  findNumTokensF (l.length + 1) l

/-! Section 4 of `pdf_financials.py`: number extraction from a text line. -/

/-- The note-reference pre-filter of `_extract_line_numbers`: a first value of
magnitude below 100 followed by some value of magnitude at least 100 is
discarded. -/
def noteRefFilter (values : List ℚ) : List ℚ :=
  match values with
  | [] => []
  | v0 :: rest =>
    if 2 ≤ (v0 :: rest).length ∧ |v0| < 100 ∧ rest.any (fun v => 100 ≤ |v|) then rest
    else v0 :: rest

/-- The numeric values of a line tail, before the note-reference filter. -/
def rawLineNumbers (line : List Char) (labelEndPos : Nat) : List ℚ :=
  (findNumTokens (line.drop labelEndPos)).filterMap parseNumberL

/-- `_extract_line_numbers`. -/
def extractLineNumbers (line : List Char) (labelEndPos : Nat) : List ℚ :=
  noteRefFilter (rawLineNumbers line labelEndPos)

/-! Section 2-3 of `pdf_financials.py`: page classification and layout. -/

/-- Page section tags. -/
inductive Sec where
  | pl
  | bs
  | oci
  | cashflow
deriving DecidableEq, Repr

/-- `SECTION_PATTERNS`, in dict insertion order. -/
def SECTION_PATTERNS : List (Sec × List String) :=
  [ (Sec.pl,
      [ "consolidated statement of profit or loss",
        "consolidated statement of income",
        "condensed interim consolidated statement of income",
        "condensed interim consolidated statement of profit or loss" ]),
    (Sec.bs,
      [ "consolidated statement of financial position",
        "condensed interim consolidated statement of financial position" ]),
    (Sec.oci,
      [ "consolidated statement of comprehensive income",
        "condensed interim consolidated statement of comprehensive income" ]),
    (Sec.cashflow,
      [ "consolidated statement of cash flows",
        "condensed interim consolidated statement of cash flows" ]) ]

/-- `_classify_page`. -/
def classifyPage (text : String) : Option Sec :=
  let lowered := pyLower (text.toList.take 1500)
  SECTION_PATTERNS.findSome? fun sp =>
    if sp.2.any (fun pat => containsSub pat.toList lowered) then some sp.1 else none

/-- Is this a word-boundary transition from `prev` into a word character? -/
def boundaryBefore (prev : Option Char) : Bool :=
  match prev with
  | none => true
  | some p => !isWordChar p

/-- Is there a word boundary between a word character and what follows? -/
def boundaryAfter (rest : List Char) : Bool :=
  match rest with
  | [] => true
  | c :: _ => !isWordChar c

/-- Count the non-overlapping matches of `_YEAR_RE = \b(20\d{2})\b` in a line
(auxiliary, fueled; a match consumes four characters, a failure one). -/
def countYearsF : Nat → Option Char → List Char → Nat
  | 0, _, _ => 0
  | _ + 1, _, [] => 0
  | fuel + 1, prev, c :: rest =>
    match c, rest with
    | '2', '0' :: d1 :: d2 :: rest2 =>
      if boundaryBefore prev ∧ d1.isDigit ∧ d2.isDigit ∧ boundaryAfter rest2 then
        1 + countYearsF fuel (some d2) rest2
      else countYearsF fuel (some '2') ('0' :: d1 :: d2 :: rest2)
    | _, _ => countYearsF fuel (some c) rest

/-- Number of `\b20\d{2}\b` matches in a line. -/
def countYears (l : List Char) : Nat :=
  countYearsF (l.length + 1) none l

/-- The scan of `_detect_column_count` over the page's leading lines. -/
def detectColAux : List (List Char) → Nat
  | [] => 0
  | line :: rest =>
    let years := countYears line
    if 4 ≤ years then 4
    else if years = 2 then 2
    else detectColAux rest

/-- `_detect_column_count`. -/
def detectColumnCount (pageText : String) : Nat :=
  detectColAux ((splitNl pageText.toList).take 15)

/-- `_detect_period_months`. -/
def detectPeriodMonths (fullText : String) : Nat :=
  let lowered := pyLower fullText.toList
  if containsSub "nine-month".toList lowered || containsSub "nine- month".toList lowered then 9
  else if containsSub "six-month".toList lowered || containsSub "six- month".toList lowered then 6
  else if containsSub "three-month".toList lowered || containsSub "three- month".toList lowered then 3
  else if containsSub "year ended".toList lowered then 12
  else 12

/-- `_pick_current_year_value`. -/
def pickCurrentYearValue (values : List ℚ) (colCount : Nat) (sec : Option Sec) : Option ℚ :=
  match values with
  | [] => none
  | v0 :: rest =>
    if colCount = 4 ∧ sec = some Sec.pl then
      match rest with
      | _ :: v2 :: _ => some v2
      | _ => some v0
    else some v0

/-! Section 5 of `pdf_financials.py`: candidate model and extraction. -/

/-- `INCOME_LABELS`, in dict insertion order. -/
def INCOME_LABELS : List (String × List String) :=
  [ ("trading_commission",
      ["trading commission fees", "trading commission fee", "trading commission"]),
    ("investment_income", ["investment income"]),
    ("dividend_income", ["dividend income"]),
    ("finance_income", ["finance income"]) ]

/-- `BALANCE_LABELS`, in dict insertion order. -/
def BALANCE_LABELS : List (String × List String) :=
  [ ("investment_deposits", ["investment deposits"]),
    ("investments_amortised_cost",
      ["investments at amortised cost", "financial assets at amortised cost"]),
    ("fvtoci",
      ["financial assets measured at fair value through other comprehensive income"]),
    ("cash_and_equivalents", ["cash and cash equivalents"]) ]

/-- The metric names of `INCOME_LABELS`. -/
def incomeKeys : List String := INCOME_LABELS.map Prod.fst

/-- The metric names of `BALANCE_LABELS`. -/
def balanceKeys : List String := BALANCE_LABELS.map Prod.fst

/-- The `Candidate` dataclass. -/
structure Candidate where
  metric : String
  value : ℚ
  page : Nat
  snippet : String
  method : String
  score : Nat
deriving DecidableEq, Repr

/-- Replace each whitespace run by a single space (the `re.sub(r"\s+", " ", ·)`
of `_normalise`; applied after stripping, so no boundary runs remain). -/
def collapseWsAux : Bool → List Char → List Char
  | _, [] => []
  | prevSpace, c :: rest =>
    if isPySpace c then
      if prevSpace then collapseWsAux true rest
      else ' ' :: collapseWsAux true rest
    else c :: collapseWsAux false rest

/-- `_normalise`: lowercase, strip, collapse whitespace. -/
def normalise (l : List Char) : List Char :=
  collapseWsAux false (pyStrip (pyLower l))

/-- `_label_matches`: first keyword whose normalisation is a prefix of the
normalised text, returned normalised. -/
def labelMatches (text : List Char) (keywords : List String) : Option (List Char) :=
  let norm := normalise text
  keywords.findSome? fun kw =>
    let kwNorm := normalise kw.toList
    if isPrefixOfB kwNorm norm then some kwNorm else none

/-- Case-insensitive literal prefix test (`re.IGNORECASE` on escaped words). -/
def isPrefixCI (pat l : List Char) : Bool :=
  isPrefixOfB (pyLower pat) (pyLower (l.take pat.length))

/-- Match the fallback pattern `\s+`.join(escaped words) anchored here,
returning the number of characters consumed (the words are non-empty and
whitespace-free, so greedy `\s+` runs are exact). -/
def matchWordsCI : List (List Char) → List Char → Option Nat
  | [], _ => some 0
  | [w], l => if isPrefixCI w l then some w.length else none
  | w :: ws, l =>
    if isPrefixCI w l then
      let rest := l.drop w.length
      match rest.span isPySpace with
      | (sp, rest2) =>
        if sp = [] then none
        else (matchWordsCI ws rest2).map (fun n => w.length + sp.length + n)
    else none

/-- `re.search` of the fallback keyword pattern: leftmost match, returning the
absolute end index. -/
def flexSearchEnd (words : List (List Char)) : Nat → List Char → Option Nat
  | i, l =>
    match matchWordsCI words l with
    | some n => some (i + n)
    | none =>
      match l with
      | [] => none
      | _ :: t => flexSearchEnd words (i + 1) t

/-- The keyword-end position used by `_extract_regex_candidates`:
`line.lower().find(matched_kw)` with the flexible-regex fallback. -/
def kwEndPos (line : List Char) (kwNorm : List Char) : Option Nat :=
  match indexOfSub kwNorm (pyLower line) with
  | some p => some (p + kwNorm.length)
  | none => flexSearchEnd (pySplitWs kwNorm) 0 line

/-- The per-line body of `_extract_regex_candidates` for one metric. -/
def regexLineCandidate (metric : String) (keywords : List String) (line : String)
    (pageNumber : Nat) (sec : Option Sec) (colCount : Nat) : Option Candidate :=
  match labelMatches line.toList keywords with
  | none => none
  | some kwNorm =>
    match kwEndPos line.toList kwNorm with
    | none => none
    | some actualEnd =>
      let values := extractLineNumbers line.toList actualEnd
      match pickCurrentYearValue values colCount sec with
      | none => none
      | some value =>
        let score :=
          if metric ∈ incomeKeys ∧ sec = some Sec.pl then 1 + 2
          else if metric ∈ balanceKeys ∧ sec = some Sec.bs then 1 + 2
          else 1
        some { metric := metric, value := value, page := pageNumber,
               snippet := String.mk ((pyStrip line.toList).take 200),
               method := "regex", score := score }

/-- `_extract_regex_candidates`. -/
def extractRegexCandidates (lines : List String) (pageNumber : Nat)
    (sec : Option Sec) (colCount : Nat) : List Candidate :=
  let labelSets :=
    if sec = some Sec.pl then INCOME_LABELS
    else if sec = some Sec.bs then BALANCE_LABELS
    else []
  labelSets.flatMap fun mk =>
    lines.filterMap fun line =>
      regexLineCandidate mk.1 mk.2 line pageNumber sec colCount

/-- Leftmost match of `20(\d{2})` (no word boundaries), as the full year. -/
def searchYear20 : List Char → Option Nat
  | [] => none
  | c :: rest =>
    match c, rest with
    | '2', '0' :: d1 :: d2 :: _ =>
      if d1.isDigit ∧ d2.isDigit then
        some (2000 + 10 * (d1.toNat - '0'.toNat) + (d2.toNat - '0'.toNat))
      else searchYear20 rest
    | _, _ => searchYear20 rest

/-- `str(cell or "")`. -/
def cellStr (c : Option String) : String :=
  match c with
  | none => ""
  | some s => s

/-- One step of the header scan of `_extract_table_candidates`: keep the
strictly highest year seen so far and the index of its column. -/
def yearColStep (acc : Nat × Option Nat) (ih : Nat × List Char) : Nat × Option Nat :=
  match searchYear20 ih.2 with
  | some yr => if acc.1 < yr then (yr, some ih.1) else acc
  | none => acc

/-- The header scan of `_extract_table_candidates`: the index of the column
whose header holds the strictly highest year (first occurrence on ties). -/
def detectYearCol (header : List (List Char)) : Option Nat :=
  (header.enum.foldl yearColStep ((0 : Nat), (none : Option Nat))).2

/-- The value selection of `_extract_table_candidates` for one row: the
year-labelled cell when present and parseable, else the first remaining cell
of magnitude at least 100. -/
def tableRowValue (yearColIdx : Option Nat) (row : List (Option String)) : Option ℚ :=
  let fromYear :=
    match yearColIdx with
    | some idx =>
      if idx < row.length then parseNumberCell (row.getD idx none) else none
    | none => none
  match fromYear with
  | some v => some v
  | none =>
    (row.drop 1).findSome? fun cell =>
      match parseNumberCell cell with
      | some v => if 100 ≤ |v| then some v else none
      | none => none

/-- The first cell of a row that is truthy and strips to a non-empty label. -/
def firstLabelCell (row : List (Option String)) : Option (List Char) :=
  row.findSome? fun cell =>
    match cell with
    | some s => if s ≠ "" ∧ pyStrip s.toList ≠ [] then some (pyStrip s.toList) else none
    | none => none

/-- The `" | "`-joined snippet of a table row (truthy cells, stripped). -/
def tableRowSnippet (row : List (Option String)) : List Char :=
  List.intercalate " | ".toList
    ((row.filter (fun c => c ≠ none ∧ c ≠ some "")).map (fun c => pyStrip (cellStr c).toList))

/-- The per-row, per-metric body of `_extract_table_candidates`. -/
def tableRowCandidate (metric : String) (keywords : List String)
    (labelCell : List Char) (yearColIdx : Option Nat) (row : List (Option String))
    (pageNumber : Nat) (sec : Option Sec) : Option Candidate :=
  if (labelMatches labelCell keywords).isNone then none
  else
    match tableRowValue yearColIdx row with
    | none => none
    | some value =>
      let score :=
        if metric ∈ incomeKeys ∧ sec = some Sec.pl then 2 + 2
        else if metric ∈ balanceKeys ∧ sec = some Sec.bs then 2 + 2
        else 2
      some { metric := metric, value := value, page := pageNumber,
             snippet := String.mk ((tableRowSnippet row).take 200),
             method := "table", score := score }

/-- `_extract_table_candidates`. -/
def extractTableCandidates (table : List (List (Option String)))
    (pageNumber : Nat) (sec : Option Sec) : List Candidate :=
  if table.length < 2 then []
  else
    let labelSets :=
      if sec = some Sec.pl then INCOME_LABELS
      else if sec = some Sec.bs then BALANCE_LABELS
      else []
    let header := (table.headD []).map (fun c => pyStrip (cellStr c).toList)
    let yearColIdx := detectYearCol header
    (table.drop 1).flatMap fun row =>
      if row = [] then []
      else
        match firstLabelCell row with
        | none => []
        | some labelCell =>
          labelSets.filterMap fun mk =>
            tableRowCandidate mk.1 mk.2 labelCell yearColIdx row pageNumber sec

/-! Section 6 of `pdf_financials.py`: note-block extraction. -/

/-- A note heading pattern `\b\d+\.\s*(alt1|alt2|...)` with an optional
trailing `\b`, matched (case-insensitively) at the current position; returns
the match length.  The phrases are stored lowercased. -/
def matchNoteHeadAt (phrases : List (List Char)) (trailingB : Bool)
    (prev : Option Char) (l : List Char) : Option Nat :=
  if boundaryBefore prev then
    match l.span Char.isDigit with
    | (digits, rest1) =>
      if digits = [] then none
      else
        match rest1 with
        | '.' :: rest2 =>
          (match rest2.span isPySpace with
          | (spaces, rest3) =>
            phrases.findSome? fun ph =>
              if isPrefixCI ph rest3 ∧ (trailingB → boundaryAfter (rest3.drop ph.length)) then
                some (digits.length + 1 + spaces.length + ph.length)
              else none)
        | _ => none
  else none

/-- `re.search` of a note heading pattern: leftmost match as absolute
`(start, end)` indices. -/
def searchNoteHead (phrases : List (List Char)) (trailingB : Bool) :
    Nat → Option Char → List Char → Option (Nat × Nat)
  | i, prev, l =>
    match matchNoteHeadAt phrases trailingB prev l with
    | some len => some (i, i + len)
    | none =>
      match l with
      | [] => none
      | c :: t => searchNoteHead phrases trailingB (i + 1) (some c) t

/-- `_find_note_block`, for the heading patterns actually used (all of the
form `\b\d+\.\s*(alternatives)` with or without a trailing `\b`). -/
def findNoteBlock (fullText : List Char)
    (startPhrases : List (List Char)) (startTrailingB : Bool)
    (endPhrases : List (List Char)) (endTrailingB : Bool) : Option (List Char) :=
  match searchNoteHead startPhrases startTrailingB 0 none fullText with
  | none => none
  | some (s, e) =>
    let rest := fullText.drop e
    let endIdx :=
      match searchNoteHead endPhrases endTrailingB 0 none rest with
      | some (es, _) => e + es
      | none => min (s + 3000) fullText.length
    some ((fullText.take endIdx).drop s)

/-- `_NUM_RE.search(line)` is equivalent to the line containing a digit
(every other character of the pattern is optional). -/
def hasNumToken (l : List Char) : Bool :=
  l.any Char.isDigit

/-- `^\d+\.\s` (the note-heading test of the line merger), on a string. -/
def startsNoteHeading (l : List Char) : Bool :=
  match l.span Char.isDigit with
  | (digits, rest) =>
    if digits = [] then false
    else
      match rest with
      | '.' :: c :: _ => isPySpace c
      | _ => false

/-- `^AED` with `re.IGNORECASE`. -/
def startsAED (l : List Char) : Bool :=
  isPrefixCI "aed".toList l

/-- The wrapped-line merger of `_extract_note20_breakdown`: a retained line
without numbers that is neither a note heading nor an `AED` unit line absorbs
the following line. -/
def mergeWrappedAux : List (List Char) → List (List Char) → List (List Char)
  | acc, [] => acc.reverse
  | acc, line :: rest =>
    let stripped := pyStrip line
    if stripped = [] then mergeWrappedAux acc rest
    else
      match acc with
      | [] => mergeWrappedAux [stripped] rest
      | last :: accRest =>
        if ¬hasNumToken last ∧ ¬startsNoteHeading (pyStrip last) ∧ ¬startsAED (pyStrip last) then
          mergeWrappedAux ((pyRstrip last ++ ' ' :: stripped) :: accRest) rest
        else mergeWrappedAux (stripped :: last :: accRest) rest

/-- Merge wrapped lines of a note block. -/
def mergeWrapped (rawLines : List (List Char)) : List (List Char) :=
  mergeWrappedAux [] rawLines

/-- The numeric values a note line contributes: parsed tokens of magnitude at
least 100 with plausible year values (2000-2099) removed. -/
def noteLineNums (line : List Char) : List ℚ :=
  ((((findNumTokens line).filterMap parseNumberL).filter
      (fun n => 100 ≤ |n|)).filter
    (fun n => ¬(2000 ≤ n ∧ n ≤ 2099)))

/-- The note-20 result dict. -/
structure Note20 where
  deposits : Option ℚ
  amortisedCost : Option ℚ
  fvtoci : Option ℚ
  total : Option ℚ
deriving DecidableEq, Repr

/-- The per-line body of the sub-metric loop of `_extract_note20_breakdown`
(the `if`/`elif` keyword chain with its first-match-wins guards). -/
def note20Step (s : Note20) (line : List Char) : Note20 :=
  let lowered := pyLower line
  match noteLineNums line with
  | [] => s
  | val :: _ =>
    if (containsSub "from investment deposits".toList lowered
          || containsSub "from deposits".toList lowered)
        ∧ s.deposits = none then
      { s with deposits := some val }
    else if containsSub "amortised cost".toList lowered ∧ s.amortisedCost = none then
      { s with amortisedCost := some val }
    else if (containsSub "fvtoci".toList lowered || containsSub "fvoci".toList lowered
          || containsSub "fair value through other comprehensive".toList lowered)
        ∧ s.fvtoci = none then
      { s with fvtoci := some val }
    else s

/-- `^[\s]*20\d{2}\s+20\d{2}[\s]*$` (year-header line test). -/
def isYearOnlyLine (l : List Char) : Bool :=
  match l.dropWhile isPySpace with
  | '2' :: '0' :: d1 :: d2 :: rest =>
    if d1.isDigit && d2.isDigit then
      match rest.span isPySpace with
      | (sp, rest2) =>
        if sp = [] then false
        else
          match rest2 with
          | '2' :: '0' :: e1 :: e2 :: rest3 =>
            e1.isDigit && e2.isDigit && (rest3.dropWhile isPySpace) = []
          | _ => false
    else false
  | _ => false

/-- `^[\d,.\s()-]+$` (numbers-only line test). -/
def isNumbersOnlyLine (l : List Char) : Bool :=
  l ≠ [] && l.all (fun c =>
    c.isDigit || c = ',' || c = '.' || isPySpace c || c = '(' || c = ')' || c = '-')

/-- The note-total scan of `_extract_note20_breakdown`: first numbers-only
line (skipping year headers and `AED` lines) with a value of magnitude at
least 100. -/
def findNote20Total (merged : List (List Char)) : Option ℚ :=
  merged.findSome? fun line =>
    let stripped := pyStrip line
    if isYearOnlyLine stripped then none
    else if containsSub "aed".toList (pyLower stripped) then none
    else if isNumbersOnlyLine stripped then
      (((findNumTokens stripped).filterMap parseNumberL).filter
        (fun n => 100 ≤ |n|)).head?
    else none

/-- `_extract_note20_breakdown`. -/
def extractNote20Breakdown (fullText : String) : Note20 :=
  let empty : Note20 := ⟨none, none, none, none⟩
  match findNoteBlock fullText.toList
      ["investment income".toList] true
      (["dividend income".toList, "general and administrative".toList,
        "other income".toList]) true with
  | none => empty
  | some block =>
    let merged := mergeWrapped (splitNl block)
    let sub := merged.foldl note20Step empty
    { sub with total := findNote20Total merged }

/-- The note-8 result dict. -/
structure Note8 where
  equity : Option ℚ
  funds : Option ℚ
  sukuk : Option ℚ
  total : Option ℚ
deriving DecidableEq, Repr

/-- The numeric values a note-8 line contributes (`≥ 100` filter, non-empty
check, then the year filter, as in the source). -/
def note8LineNums (line : List Char) : List ℚ :=
  let nums := ((findNumTokens line).filterMap parseNumberL).filter (fun n => 100 ≤ |n|)
  if nums = [] then []
  else nums.filter (fun n => ¬(2000 ≤ n ∧ n ≤ 2099))

/-- The per-line body of the sub-metric loop of `_extract_note8_fvtoci_split`. -/
def note8Step (s : Note8) (line : List Char) : Note8 :=
  let lowered := pyLower line
  match note8LineNums line with
  | [] => s
  | val :: _ =>
    if containsSub "equity securities".toList lowered ∧ s.equity = none then
      { s with equity := some val }
    else if containsSub "managed fund".toList lowered ∧ s.funds = none then
      { s with funds := some val }
    else if containsSub "investment in sukuk".toList lowered ∧ s.sukuk = none then
      { s with sukuk := some val }
    else s

/-- The note-8 total scan: first numbers-only line with a value of magnitude
at least 1,000,000. -/
def findNote8Total (lines : List (List Char)) : Option ℚ :=
  lines.findSome? fun line =>
    let stripped := pyStrip line
    if isYearOnlyLine stripped then none
    else if containsSub "aed".toList (pyLower stripped) then none
    else if isNumbersOnlyLine stripped then
      (((findNumTokens stripped).filterMap parseNumberL).filter
        (fun n => 1000000 ≤ |n|)).head?
    else none

/-- `_extract_note8_fvtoci_split`. -/
def extractNote8FvtociSplit (fullText : String) : Note8 :=
  let empty : Note8 := ⟨none, none, none, none⟩
  match findNoteBlock fullText.toList
      ["financial assets measured at fair value through other comprehensive income".toList]
      false
      ["investments at amortised cost".toList] true with
  | none => empty
  | some block =>
    let lines := splitNl block
    let sub := lines.foldl note8Step empty
    { sub with total := findNote8Total lines }

/-! Section 7 of `pdf_financials.py`: best-candidate selection. -/

/-- `_METHOD_RANK` with its `.get(·, 0)` default. -/
def METHOD_RANK (m : String) : Nat :=
  if m = "table" then 2 else if m = "note_block" then 1 else 0

/-- Association-list lookup (Python dict `get`). -/
def alistGet {α : Type} : List (String × α) → String → Option α
  | [], _ => none
  | (k, v) :: rest, key => if k = key then some v else alistGet rest key

/-- Association-list update (Python dict assignment: in-place update of an
existing key, append of a new one). -/
def alistSet {α : Type} : List (String × α) → String → α → List (String × α)
  | [], key, v => [(key, v)]
  | (k, w) :: rest, key, v =>
    if k = key then (k, v) :: rest else (k, w) :: alistSet rest key v

/-- The comparison body of `_best_candidates`: does the incoming candidate
replace the existing one? -/
def chooseBetter (existing c : Candidate) : Candidate :=
  if existing.score < c.score then c
  else if c.score = existing.score then
    if METHOD_RANK existing.method < METHOD_RANK c.method then c
    else if METHOD_RANK c.method = METHOD_RANK existing.method ∧ c.metric ∈ balanceKeys then
      if |existing.value| < |c.value| then c else existing
    else existing
  else existing

/-- One iteration of the `_best_candidates` loop. -/
def insertBest (best : List (String × Candidate)) (c : Candidate) :
    List (String × Candidate) :=
  match alistGet best c.metric with
  | none => best ++ [(c.metric, c)]
  | some existing => alistSet best c.metric (chooseBetter existing c)

/-- `_best_candidates`. -/
def bestCandidates (candidates : List Candidate) : List (String × Candidate) :=
  candidates.foldl insertBest []

/-! Section 8 of `pdf_financials.py`: the main parse function. -/

/-- An audit-trail entry (the `audit.append` dicts); `confidenceScore` models
the interpolated `f"score={...}"` tag, `none` standing for `"fallback"`. -/
structure AuditEntry where
  metricName : String
  value : ℚ
  method : String
  page : Option Nat
  snippet : String
  confidenceScore : Option Nat
deriving DecidableEq, Repr

/-- A reconciliation warning, modelled as the data interpolated into the
warning f-string: which comparison failed, the note-derived figure, the
headline, and their absolute difference. -/
inductive WarnKind where
  | noteTotal
  | breakdownSum
deriving DecidableEq, Repr

/-- A reconciliation warning record. -/
structure Warning where
  kind : WarnKind
  stated : ℚ
  headline : ℚ
  delta : ℚ
deriving DecidableEq, Repr

/-- A document page as exposed by pdfplumber: extracted text and tables. -/
structure Page where
  text : String
  tables : List (List (List (Option String)))
deriving DecidableEq, Repr

/-- The parse result (the returned dict; display items are modelled as
label-value pairs, the data interpolated into the item strings). -/
structure ParseResult where
  metrics : List (String × ℚ)
  audit : List AuditEntry
  items : List (String × ℚ)
  note20 : Note20
  note8 : Note8
  warnings : List Warning
deriving DecidableEq, Repr

/-- The PASS-5 merge of the note-20 sub-metrics into the metrics map. -/
def applyNote20 (m : List (String × ℚ)) (n : Note20) : List (String × ℚ) :=
  let m1 := match n.deposits with
    | some v => alistSet m "investment_income_deposits" v
    | none => m
  let m2 := match n.amortisedCost with
    | some v => alistSet m1 "investment_income_amortised_cost" v
    | none => m1
  match n.fvtoci with
  | some v => alistSet m2 "investment_income_fvtoci" v
  | none => m2

/-- The PASS-5 merge of the note-8 sub-metrics into the metrics map. -/
def applyNote8Sub (m : List (String × ℚ)) (n : Note8) : List (String × ℚ) :=
  let m1 := match n.equity with
    | some v => alistSet m "fvtoci_equity" v
    | none => m
  let m2 := match n.funds with
    | some v => alistSet m1 "fvtoci_funds" v
    | none => m1
  match n.sukuk with
  | some v => alistSet m2 "fvtoci_sukuk" v
  | none => m2

/-- The FVTOCI fallback: when the balance-sheet value is absent or below
1000, the note-8 total (when present) overwrites it, with an audit entry. -/
def fvtociFallback (m : List (String × ℚ)) (n : Note8) :
    List (String × ℚ) × Option AuditEntry :=
  let missingOrSmall :=
    match alistGet m "fvtoci" with
    | none => true
    | some v => decide (v < 1000)
  if missingOrSmall then
    match n.total with
    | some t =>
      (alistSet m "fvtoci" t,
        some { metricName := "fvtoci", value := t, method := "note_block",
               page := none, snippet := "FVTOCI total from Note 8 block",
               confidenceScore := none })
    | none => (m, none)
  else (m, none)

/-- The whole note-merge step (PASS 5 including the FVTOCI fallback). -/
def noteMergeStep (m : List (String × ℚ)) (n20 : Note20) (n8 : Note8) :
    List (String × ℚ) × Option AuditEntry :=
  fvtociFallback (applyNote8Sub (applyNote20 m n20) n8) n8

/-- Python `max(a, b)` on two numbers (the first argument on ties). -/
def pyMax (a b : ℚ) : ℚ :=
  if a < b then b else a

/-- The breakdown sum of PASS 6 (`note20.get(k) or 0` summed over the three
sub-metrics). -/
def bkdnSum (n : Note20) : ℚ :=
  n.deposits.getD 0 + n.amortisedCost.getD 0 + n.fvtoci.getD 0

/-- The PASS-6 reconciliation validation. -/
def validateReconciliation (headline : Option ℚ) (n20 : Note20) : List Warning :=
  match headline with
  | none => []
  | some h =>
    if h = 0 then []
    else
      let noteWarnings :=
        match n20.total with
        | some t =>
          if t = 0 then []
          else
            let diff := |h - t|
            let tol := pyMax (|h| * (0.005 : ℚ)) 2
            if tol < diff then [⟨WarnKind.noteTotal, t, h, diff⟩] else []
        | none => []
      let bkdn := bkdnSum n20
      let bkdnWarnings :=
        if 0 < bkdn then
          let diff := |h - bkdn|
          let tol := pyMax (|h| * (0.005 : ℚ)) 2
          if tol < diff then [⟨WarnKind.breakdownSum, bkdn, h, diff⟩] else []
        else []
      noteWarnings ++ bkdnWarnings

/-- The audit entry generated for a resolved metric. -/
def mkAudit (metric : String) (c : Candidate) : AuditEntry :=
  { metricName := metric, value := c.value, method := c.method,
    page := some c.page, snippet := c.snippet, confidenceScore := some c.score }

/-- The display items (label-value pairs of the item strings). -/
def buildItems (m : List (String × ℚ)) : List (String × ℚ) :=
  [ ("trading_commission", "Trading Comm"),
    ("investment_income", "Inv Income"),
    ("dividend_income", "Dividend Income"),
    ("investment_deposits", "Investment Deposits (cash at banks)"),
    ("investments_amortised_cost", "Investments at Amortised Cost (sukuk & bonds)"),
    ("fvtoci", "FVTOCI Financial Assets"),
    ("cash_and_equivalents", "Cash & Equivalents") ].filterMap
    fun kl => (alistGet m kl.1).map (fun v => (kl.2, v))

/-- The candidates of one classified page (PASS 2). -/
def pageCandidates (pageIdx : Nat) (page : Page) (sec : Option Sec) : List Candidate :=
  if sec = some Sec.pl ∨ sec = some Sec.bs then
    let colCount := detectColumnCount page.text
    let lines := (splitNl page.text.toList).map String.mk
    extractRegexCandidates lines (pageIdx + 1) sec colCount
      ++ page.tables.flatMap fun t => extractTableCandidates t (pageIdx + 1) sec
  else []

/-- The document-read failure of `parse_pdf_financials`: `pdfplumber.open`
raising on an unreadable source. -/
inductive DocumentReadError where
  | cannotOpen
deriving DecidableEq, Repr

/-- `parse_pdf_financials`.  The pdfplumber handle is `Option (List Page)`:
`none` aborts with `DocumentReadError`, any page list (including the empty
one) runs the pipeline to completion. -/
def parsePdfFinancials (doc : Option (List Page)) :
    Except DocumentReadError ParseResult :=
  match doc with
  | none => Except.error DocumentReadError.cannotOpen
  | some pages =>
    let pageTexts := pages.map Page.text
    let pageSections := pageTexts.map classifyPage
    let candidates :=
      (pages.zip pageSections).enum.flatMap fun ips =>
        pageCandidates ips.1 ips.2.1 ips.2.2
    let best := bestCandidates candidates
    let metrics0 := best.foldl (fun m kc => alistSet m kc.1 kc.2.value) []
    let audit0 := best.map fun kc => mkAudit kc.1 kc.2
    let fullText := String.mk (List.intercalate ['\n'] (pageTexts.map String.toList))
    let metrics1 := alistSet metrics0 "period_months" (detectPeriodMonths fullText : ℚ)
    let note20 := extractNote20Breakdown fullText
    let note8 := extractNote8FvtociSplit fullText
    let merged := noteMergeStep metrics1 note20 note8
    let audit := audit0 ++ merged.2.toList
    let warnings := validateReconciliation (alistGet merged.1 "investment_income") note20
    let items := buildItems merged.1
    Except.ok
      { metrics := merged.1, audit := audit, items := items,
        note20 := note20, note8 := note8, warnings := warnings }

/-! Helper lemmas about the association-list operations. -/

theorem alistGet_alistSet {α : Type} (m : List (String × α)) (k k' : String) (v : α) :
    alistGet (alistSet m k v) k' = if k = k' then some v else alistGet m k' := by
  induction m with
  | nil =>
    by_cases h : k = k' <;> simp [alistSet, alistGet, h]
  | cons p rest ih =>
    obtain ⟨pk, pv⟩ := p
    by_cases hpk : pk = k
    · subst hpk
      by_cases h : pk = k' <;> simp [alistSet, alistGet, h]
    · simp only [alistSet, if_neg hpk, alistGet, ih]
      by_cases hpk' : pk = k'
      · have hk : ¬k = k' := fun h => hpk (h ▸ hpk')
        simp [hpk', hk]
      · simp [hpk']

theorem alistGet_append {α : Type} (a b : List (String × α)) (k : String) :
    alistGet (a ++ b) k = ((alistGet a k).orElse (fun _ => alistGet b k)) := by
  induction a with
  | nil => simp [alistGet]
  | cons p rest ih =>
    by_cases h : p.1 = k <;> simp [alistGet, h, ih]

/-! The deterministic comparator order realised by `_best_candidates`. -/

/-- The "not strictly better" order of the resolver, for candidates of one
metric: lexicographic on score, then method rank, then (for balance metrics)
absolute value. -/
def candLE (x y : Candidate) : Prop :=
  x.score ≤ y.score ∧
    (x.score = y.score →
      METHOD_RANK x.method ≤ METHOD_RANK y.method ∧
        (METHOD_RANK x.method = METHOD_RANK y.method →
          x.metric ∈ balanceKeys → |x.value| ≤ |y.value|))

theorem candLE_refl (x : Candidate) : candLE x x :=
  ⟨le_refl _, fun _ => ⟨le_refl _, fun _ _ => le_refl _⟩⟩

theorem candLE_trans {x y z : Candidate} (hm : x.metric = y.metric)
    (h1 : candLE x y) (h2 : candLE y z) : candLE x z := by
  obtain ⟨hs1, hr1⟩ := h1
  obtain ⟨hs2, hr2⟩ := h2
  refine ⟨le_trans hs1 hs2, fun hxz => ?_⟩
  have hxy : x.score = y.score := le_antisymm hs1 (hxz ▸ hs2)
  have hyz : y.score = z.score := hxy ▸ hxz
  obtain ⟨hm1, hv1⟩ := hr1 hxy
  obtain ⟨hm2, hv2⟩ := hr2 hyz
  refine ⟨le_trans hm1 hm2, fun hrx hbx => ?_⟩
  have hrxy : METHOD_RANK x.method = METHOD_RANK y.method :=
    le_antisymm hm1 (hrx ▸ hm2)
  have hryz : METHOD_RANK y.method = METHOD_RANK z.method := hrxy ▸ hrx
  exact le_trans (hv1 hrxy hbx) (hv2 hryz (hm ▸ hbx))

theorem candLE_antisymm {x y : Candidate}
    (h1 : candLE x y) (h2 : candLE y x) :
    x.score = y.score ∧ METHOD_RANK x.method = METHOD_RANK y.method ∧
      (x.metric ∈ balanceKeys → y.metric ∈ balanceKeys → |x.value| = |y.value|) := by
  obtain ⟨hs1, hr1⟩ := h1
  obtain ⟨hs2, hr2⟩ := h2
  have hs : x.score = y.score := le_antisymm hs1 hs2
  obtain ⟨hm1, hv1⟩ := hr1 hs
  obtain ⟨hm2, hv2⟩ := hr2 hs.symm
  have hm : METHOD_RANK x.method = METHOD_RANK y.method := le_antisymm hm1 hm2
  exact ⟨hs, hm, fun hbx hby => le_antisymm (hv1 hm hbx) (hv2 hm.symm hby)⟩

theorem chooseBetter_cases (e c : Candidate) :
    chooseBetter e c = e ∨ chooseBetter e c = c := by
  unfold chooseBetter
  split_ifs <;> simp

theorem candLE_chooseBetter_left (e c : Candidate) : candLE e (chooseBetter e c) := by
  unfold chooseBetter
  split_ifs with h1 h2 h3 h4 h5
  · exact ⟨le_of_lt h1, fun h => absurd h (by omega)⟩
  · exact ⟨le_of_eq h2.symm, fun _ => ⟨le_of_lt h3, fun h => absurd h (by omega)⟩⟩
  · exact ⟨le_of_eq h2.symm, fun _ => ⟨le_of_eq h4.1.symm, fun _ _ => le_of_lt h5⟩⟩
  · exact candLE_refl e
  · exact candLE_refl e
  · exact candLE_refl e

theorem candLE_chooseBetter_right (e c : Candidate) : candLE c (chooseBetter e c) := by
  unfold chooseBetter
  split_ifs with h1 h2 h3 h4 h5
  · exact candLE_refl c
  · exact candLE_refl c
  · exact candLE_refl c
  · -- kept `e`: ranks equal, balance metric, but `|c.value| ≤ |e.value|`
    exact ⟨le_of_eq h2, fun _ => ⟨le_of_eq h4.1, fun _ _ => le_of_not_lt h5⟩⟩
  · -- kept `e`: rank of `c` not higher and the balance clause does not apply
    refine ⟨le_of_eq h2, fun _ => ⟨le_of_not_lt h3, fun hr hb => absurd ⟨hr, hb⟩ h4⟩⟩
  · -- kept `e`: score of `c` strictly lower
    exact ⟨le_of_not_lt h1, fun h => absurd h h2⟩

/-- Invariant of the resolver accumulator: entries are keyed by their
candidate's metric. -/
def BestWF (acc : List (String × Candidate)) : Prop :=
  ∀ k c, alistGet acc k = some c → c.metric = k

theorem insertBest_get (acc : List (String × Candidate)) (x : Candidate) (k : String) :
    alistGet (insertBest acc x) k =
      if k = x.metric then
        some (match alistGet acc x.metric with
              | none => x
              | some e => chooseBetter e x)
      else alistGet acc k := by
  unfold insertBest
  cases hx : alistGet acc x.metric with
  | none =>
    rw [alistGet_append]
    by_cases h : k = x.metric
    · subst h
      rw [hx]
      simp [alistGet, Option.orElse]
    · have hne : ¬x.metric = k := fun h' => h h'.symm
      rw [if_neg h]
      cases hk : alistGet acc k <;> simp [hk, alistGet, hne, Option.orElse]
  | some e =>
    rw [alistGet_alistSet]
    by_cases h : k = x.metric
    · subst h
      simp
    · have hne : ¬x.metric = k := fun h' => h h'.symm
      simp [h, hne]

theorem insertBest_wf {acc : List (String × Candidate)} (hwf : BestWF acc)
    (x : Candidate) : BestWF (insertBest acc x) := by
  intro k c hget
  rw [insertBest_get] at hget
  by_cases h : k = x.metric
  · subst h
    rw [if_pos rfl] at hget
    cases hx : alistGet acc x.metric with
    | none =>
      rw [hx] at hget
      simp only [Option.some.injEq] at hget
      subst hget
      rfl
    | some e =>
      rw [hx] at hget
      simp only [Option.some.injEq] at hget
      have he := hwf _ _ hx
      subst hget
      rcases chooseBetter_cases e x with hc | hc
      · rw [hc]; exact he
      · simp [hc]
  · rw [if_neg h] at hget
    exact hwf k c hget

theorem foldl_insertBest_spec (cs : List Candidate) :
    ∀ (acc : List (String × Candidate)), BestWF acc →
      ∀ k c, alistGet (cs.foldl insertBest acc) k = some c →
        c.metric = k ∧ (c ∈ cs ∨ alistGet acc k = some c) ∧
          (∀ x ∈ cs, x.metric = k → candLE x c) ∧
          (∀ e, alistGet acc k = some e → candLE e c) := by
  induction cs with
  | nil =>
    intro acc hwf k c hget
    simp only [List.foldl_nil] at hget
    refine ⟨hwf k c hget, Or.inr hget, ?_, ?_⟩
    · intro x hx
      exact absurd hx (List.not_mem_nil x)
    · intro e he
      rw [hget] at he
      cases he
      exact candLE_refl c
  | cons x rest ih =>
    intro acc hwf k c hget
    rw [List.foldl_cons] at hget
    have hwf' := insertBest_wf hwf x
    obtain ⟨hmet, hmem, hdom, hacc⟩ := ih (insertBest acc x) hwf' k c hget
    -- what the accumulator holds at `k` right after inserting `x`
    have hstep := insertBest_get acc x k
    refine ⟨hmet, ?_, ?_, ?_⟩
    · rcases hmem with hmem | hmem
      · exact Or.inl (List.mem_cons_of_mem x hmem)
      · rw [hstep] at hmem
        by_cases hk : k = x.metric
        · rw [if_pos hk] at hmem
          cases hx : alistGet acc x.metric with
          | none =>
            rw [hx] at hmem
            simp only [Option.some.injEq] at hmem
            exact Or.inl (hmem ▸ List.mem_cons_self x rest)
          | some e =>
            rw [hx] at hmem
            simp only [Option.some.injEq] at hmem
            rcases chooseBetter_cases e x with hc | hc
            · rw [hc] at hmem
              exact Or.inr (hk ▸ (hmem ▸ hx))
            · rw [hc] at hmem
              exact Or.inl (hmem ▸ List.mem_cons_self x rest)
        · rw [if_neg hk] at hmem
          exact Or.inr hmem
    · intro y hy hym
      rcases List.mem_cons.mp hy with rfl | hy'
      · -- dominance over the head candidate itself
        subst hym
        have hsome : ∃ b, alistGet (insertBest acc y) y.metric = some b ∧ candLE y b := by
          rw [insertBest_get, if_pos rfl]
          cases hx : alistGet acc y.metric with
          | none => exact ⟨y, rfl, candLE_refl y⟩
          | some e => exact ⟨chooseBetter e y, rfl, candLE_chooseBetter_right e y⟩
        obtain ⟨b, hb, hxb⟩ := hsome
        have hbc := hacc b hb
        have hbm : b.metric = y.metric := hwf' _ _ hb
        exact candLE_trans (hbm.symm) hxb hbc
      · exact hdom y hy' hym
    · intro e he
      have hb : ∃ b, alistGet (insertBest acc x) k = some b ∧ candLE e b := by
        rw [hstep]
        by_cases hk : k = x.metric
        · rw [if_pos hk]
          rw [hk] at he
          rw [he]
          exact ⟨chooseBetter e x, rfl, candLE_chooseBetter_left e x⟩
        · rw [if_neg hk]
          exact ⟨e, he, candLE_refl e⟩
      obtain ⟨b, hb', heb⟩ := hb
      have hbc := hacc b hb'
      have hem : e.metric = k := hwf _ _ he
      have hbm : b.metric = k := hwf' _ _ hb'
      exact candLE_trans (hem.trans hbm.symm) heb hbc

theorem foldl_insertBest_isSome (cs : List Candidate) :
    ∀ (acc : List (String × Candidate)) (k : String),
      ((alistGet acc k).isSome ∨ ∃ x ∈ cs, x.metric = k) →
      (alistGet (cs.foldl insertBest acc) k).isSome := by
  induction cs with
  | nil =>
    intro acc k h
    rcases h with h | ⟨x, hx, _⟩
    · simpa using h
    · exact absurd hx (List.not_mem_nil x)
  | cons x rest ih =>
    intro acc k h
    rw [List.foldl_cons]
    refine ih (insertBest acc x) k ?_
    rw [insertBest_get]
    by_cases hk : k = x.metric
    · rw [if_pos hk]
      exact Or.inl rfl
    · rw [if_neg hk]
      rcases h with h | ⟨y, hy, hym⟩
      · exact Or.inl h
      · rcases List.mem_cons.mp hy with rfl | hy'
        · exact absurd hym.symm hk
        · exact Or.inr ⟨y, hy', hym⟩

/-- The best-candidate map is sound and optimal: every resolved entry is one
of the input candidates for its metric and is maximal for the comparator. -/
theorem bestCandidates_spec (cs : List Candidate) (k : String) (c : Candidate)
    (hget : alistGet (bestCandidates cs) k = some c) :
    c.metric = k ∧ c ∈ cs ∧ ∀ x ∈ cs, x.metric = k → candLE x c := by
  have hwf : BestWF ([] : List (String × Candidate)) := by
    intro k c h
    simp [alistGet] at h
  obtain ⟨hmet, hmem, hdom, _⟩ := foldl_insertBest_spec cs [] hwf k c hget
  refine ⟨hmet, ?_, hdom⟩
  rcases hmem with hmem | hmem
  · exact hmem
  · simp [alistGet] at hmem

/-! Helper lemmas about the note-merge step. -/

/-- The sub-metric names written by the note-20 and note-8 merges. -/
def noteSubKeys : List String :=
  [ "investment_income_deposits", "investment_income_amortised_cost",
    "investment_income_fvtoci", "fvtoci_equity", "fvtoci_funds", "fvtoci_sukuk" ]

theorem applyNote20_get_ne (m : List (String × ℚ)) (n : Note20) (k : String)
    (h1 : k ≠ "investment_income_deposits")
    (h2 : k ≠ "investment_income_amortised_cost")
    (h3 : k ≠ "investment_income_fvtoci") :
    alistGet (applyNote20 m n) k = alistGet m k := by
  obtain ⟨d, a, f, t⟩ := n
  cases d <;> cases a <;> cases f <;>
    simp [applyNote20, alistGet_alistSet, Ne.symm h1, Ne.symm h2, Ne.symm h3]

theorem applyNote8Sub_get_ne (m : List (String × ℚ)) (n : Note8) (k : String)
    (h1 : k ≠ "fvtoci_equity") (h2 : k ≠ "fvtoci_funds") (h3 : k ≠ "fvtoci_sukuk") :
    alistGet (applyNote8Sub m n) k = alistGet m k := by
  obtain ⟨e, f, s, t⟩ := n
  cases e <;> cases f <;> cases s <;>
    simp [applyNote8Sub, alistGet_alistSet, Ne.symm h1, Ne.symm h2, Ne.symm h3]

theorem fvtociFallback_get_ne (m : List (String × ℚ)) (n : Note8) (k : String)
    (h : k ≠ "fvtoci") :
    alistGet (fvtociFallback m n).1 k = alistGet m k := by
  unfold fvtociFallback
  cases hm : alistGet m "fvtoci" <;> cases ht : n.total <;> dsimp only <;>
    split_ifs <;> simp [alistGet_alistSet, Ne.symm h]

theorem fvtociFallback_keep (m : List (String × ℚ)) (n : Note8) (v : ℚ)
    (hv : alistGet m "fvtoci" = some v) (h1000 : ¬v < 1000) :
    fvtociFallback m n = (m, none) := by
  unfold fvtociFallback
  rw [hv]
  simp [h1000]

/-! Field access for the note sub-metric records. -/

/-- The three sub-metric fields set by the note-20 line loop. -/
inductive N20Fld where
  | deposits
  | amortisedCost
  | fvtoci
deriving DecidableEq, Repr

/-- Field projection for `Note20` sub-metrics. -/
def n20Get (s : Note20) : N20Fld → Option ℚ
  | N20Fld.deposits => s.deposits
  | N20Fld.amortisedCost => s.amortisedCost
  | N20Fld.fvtoci => s.fvtoci

/-- The three sub-metric fields set by the note-8 line loop. -/
inductive N8Fld where
  | equity
  | funds
  | sukuk
deriving DecidableEq, Repr

/-- Field projection for `Note8` sub-metrics. -/
def n8Get (s : Note8) : N8Fld → Option ℚ
  | N8Fld.equity => s.equity
  | N8Fld.funds => s.funds
  | N8Fld.sukuk => s.sukuk

/-! Helper lemmas about the table-header year scan. -/

theorem yearColStep_le (acc : Nat × Option Nat) (p : Nat × List Char) :
    acc.1 ≤ (yearColStep acc p).1 := by
  unfold yearColStep
  cases h : searchYear20 p.2 with
  | none => exact le_refl _
  | some yr =>
    dsimp only
    split_ifs with hlt
    · exact le_of_lt hlt
    · exact le_refl _

theorem yearColStep_dom (acc : Nat × Option Nat) (p : Nat × List Char) (y' : Nat)
    (h : searchYear20 p.2 = some y') : y' ≤ (yearColStep acc p).1 := by
  unfold yearColStep
  rw [h]
  dsimp only
  split_ifs with hlt
  · exact le_refl _
  · exact le_of_not_lt hlt

theorem yearColStep_cases (acc : Nat × Option Nat) (p : Nat × List Char) :
    yearColStep acc p = acc ∨
      (searchYear20 p.2 = some (yearColStep acc p).1 ∧
        (yearColStep acc p).2 = some p.1) := by
  cases h : searchYear20 p.2 with
  | none =>
    refine Or.inl ?_
    unfold yearColStep
    rw [h]
  | some yr =>
    by_cases hlt : acc.1 < yr
    · have he : yearColStep acc p = (yr, some p.1) := by
        unfold yearColStep
        rw [h]
        exact if_pos hlt
      rw [he]
      exact Or.inr ⟨rfl, rfl⟩
    · refine Or.inl ?_
      unfold yearColStep
      rw [h]
      exact if_neg hlt

theorem foldl_yearColStep_spec (ps : List (Nat × List Char)) :
    ∀ acc : Nat × Option Nat,
      (∀ p ∈ ps, ∀ y', searchYear20 p.2 = some y' → y' ≤ (ps.foldl yearColStep acc).1) ∧
      acc.1 ≤ (ps.foldl yearColStep acc).1 ∧
      (ps.foldl yearColStep acc = acc ∨
        ∃ p ∈ ps, searchYear20 p.2 = some (ps.foldl yearColStep acc).1 ∧
          (ps.foldl yearColStep acc).2 = some p.1) := by
  induction ps with
  | nil =>
    intro acc
    exact ⟨fun p hp => absurd hp (List.not_mem_nil p), le_refl _, Or.inl rfl⟩
  | cons p ps ih =>
    intro acc
    rw [List.foldl_cons]
    obtain ⟨hdom, hle, hcase⟩ := ih (yearColStep acc p)
    refine ⟨?_, le_trans (yearColStep_le acc p) hle, ?_⟩
    · intro q hq y' hy'
      rcases List.mem_cons.mp hq with rfl | hq'
      · exact le_trans (yearColStep_dom acc q y' hy') hle
      · exact hdom q hq' y' hy'
    · rcases hcase with hcase | ⟨q, hq, hqy, hqi⟩
      · rw [hcase]
        rcases yearColStep_cases acc p with hs | ⟨hsy, hsi⟩
        · exact Or.inl hs
        · exact Or.inr ⟨p, List.mem_cons_self p ps, hsy, hsi⟩
      · exact Or.inr ⟨q, List.mem_cons_of_mem p hq, hqy, hqi⟩

theorem detectYearCol_spec (header : List (List Char)) (idx : Nat)
    (h : detectYearCol header = some idx) :
    ∃ y cell, (idx, cell) ∈ header.enum ∧ searchYear20 cell = some y ∧
      ∀ jc ∈ header.enum, ∀ y', searchYear20 jc.2 = some y' → y' ≤ y := by
  obtain ⟨hdom, _, hcase⟩ := foldl_yearColStep_spec header.enum ((0 : Nat), none)
  unfold detectYearCol at h
  rcases hcase with hcase | ⟨p, hp, hpy, hpi⟩
  · rw [hcase] at h
    cases h
  · rw [hpi] at h
    cases h
    exact ⟨_, p.2, hp, hpy, hdom⟩

/-! Helper lemmas: extracted candidates carry label-dictionary metric names. -/

theorem regexLineCandidate_metric (metric : String) (kws : List String)
    (line : String) (pn : Nat) (sec : Option Sec) (cc : Nat) (c : Candidate)
    (h : regexLineCandidate metric kws line pn sec cc = some c) :
    c.metric = metric := by
  unfold regexLineCandidate at h
  cases h1 : labelMatches line.toList kws with
  | none => rw [h1] at h; cases h
  | some kwNorm =>
    rw [h1] at h
    dsimp only at h
    cases h2 : kwEndPos line.toList kwNorm with
    | none => rw [h2] at h; cases h
    | some actualEnd =>
      rw [h2] at h
      dsimp only at h
      cases h3 : pickCurrentYearValue (extractLineNumbers line.toList actualEnd) cc sec with
      | none => rw [h3] at h; cases h
      | some value =>
        rw [h3] at h
        simp only [Option.some.injEq] at h
        subst h
        rfl

theorem tableRowCandidate_metric (metric : String) (kws : List String)
    (labelCell : List Char) (yci : Option Nat) (row : List (Option String))
    (pn : Nat) (sec : Option Sec) (c : Candidate)
    (h : tableRowCandidate metric kws labelCell yci row pn sec = some c) :
    c.metric = metric := by
  unfold tableRowCandidate at h
  by_cases h1 : (labelMatches labelCell kws).isNone
  · rw [if_pos h1] at h
    cases h
  · rw [if_neg h1] at h
    cases h2 : tableRowValue yci row with
    | none => rw [h2] at h; cases h
    | some value =>
      rw [h2] at h
      dsimp only at h
      simp only [Option.some.injEq] at h
      subst h
      rfl

theorem extractRegexCandidates_metric (lines : List String) (pn : Nat)
    (sec : Option Sec) (cc : Nat) (c : Candidate)
    (h : c ∈ extractRegexCandidates lines pn sec cc) :
    c.metric ∈ incomeKeys ∨ c.metric ∈ balanceKeys := by
  unfold extractRegexCandidates at h
  rw [List.mem_flatMap] at h
  obtain ⟨mk, hmk, hline⟩ := h
  rw [List.mem_filterMap] at hline
  obtain ⟨line, _, heq⟩ := hline
  have hm := regexLineCandidate_metric mk.1 mk.2 line pn sec cc c heq
  by_cases hpl : sec = some Sec.pl
  · rw [if_pos hpl] at hmk
    exact Or.inl (hm ▸ List.mem_map_of_mem Prod.fst hmk)
  · rw [if_neg hpl] at hmk
    by_cases hbs : sec = some Sec.bs
    · rw [if_pos hbs] at hmk
      exact Or.inr (hm ▸ List.mem_map_of_mem Prod.fst hmk)
    · rw [if_neg hbs] at hmk
      exact absurd hmk (List.not_mem_nil mk)

theorem extractTableCandidates_metric (table : List (List (Option String)))
    (pn : Nat) (sec : Option Sec) (c : Candidate)
    (h : c ∈ extractTableCandidates table pn sec) :
    c.metric ∈ incomeKeys ∨ c.metric ∈ balanceKeys := by
  unfold extractTableCandidates at h
  by_cases hlen : table.length < 2
  · rw [if_pos hlen] at h
    exact absurd h (List.not_mem_nil c)
  · rw [if_neg hlen] at h
    dsimp only at h
    rw [List.mem_flatMap] at h
    obtain ⟨row, _, hrow⟩ := h
    by_cases hre : row = []
    · rw [if_pos hre] at hrow
      exact absurd hrow (List.not_mem_nil c)
    · rw [if_neg hre] at hrow
      cases hlc : firstLabelCell row with
      | none => rw [hlc] at hrow; exact absurd hrow (List.not_mem_nil c)
      | some labelCell =>
        rw [hlc] at hrow
        dsimp only at hrow
        rw [List.mem_filterMap] at hrow
        obtain ⟨mk, hmk, heq⟩ := hrow
        have hm := tableRowCandidate_metric mk.1 mk.2 labelCell _ row pn sec c heq
        by_cases hpl : sec = some Sec.pl
        · rw [if_pos hpl] at hmk
          exact Or.inl (hm ▸ List.mem_map_of_mem Prod.fst hmk)
        · rw [if_neg hpl] at hmk
          by_cases hbs : sec = some Sec.bs
          · rw [if_pos hbs] at hmk
            exact Or.inr (hm ▸ List.mem_map_of_mem Prod.fst hmk)
          · rw [if_neg hbs] at hmk
            exact absurd hmk (List.not_mem_nil mk)

theorem pageCandidates_metric (i : Nat) (p : Page) (s : Option Sec) (c : Candidate)
    (h : c ∈ pageCandidates i p s) :
    c.metric ∈ incomeKeys ∨ c.metric ∈ balanceKeys := by
  unfold pageCandidates at h
  split_ifs at h with hs
  · rw [List.mem_append] at h
    rcases h with h | h
    · exact extractRegexCandidates_metric _ _ _ _ c h
    · rw [List.mem_flatMap] at h
      obtain ⟨t, _, ht⟩ := h
      exact extractTableCandidates_metric t _ _ c ht
  · exact absurd h (List.not_mem_nil c)

/-! The claim theorems. -/

/-- C2: for every non-empty numeric token list on a 4-column income-statement
page, the period-value selector returns the third token when at least three
exist and otherwise the first; consequently the line
`Trading commission fees 113,272 45,827 310,195 138,179` on a 4-column
income-statement page resolves to 310195. -/
theorem c2_theorem :
    (∀ (v0 v1 v2 : ℚ) (rest : List ℚ),
        pickCurrentYearValue (v0 :: v1 :: v2 :: rest) 4 (some Sec.pl) = some v2) ∧
    (∀ values : List ℚ, values ≠ [] → values.length < 3 →
        pickCurrentYearValue values 4 (some Sec.pl) = values.head?) ∧
    (extractRegexCandidates
        ["Trading commission fees 113,272 45,827 310,195 138,179"] 1
        (some Sec.pl) 4).map (fun c => (c.metric, c.value))
      = [("trading_commission", (310195 : ℚ))] := by
  refine ⟨?_, ?_, by decide⟩
  · intro v0 v1 v2 rest
    simp [pickCurrentYearValue]
  · intro values hne hlen
    match values with
    | [] => exact absurd rfl hne
    | [v0] => simp [pickCurrentYearValue]
    | [v0, v1] => simp [pickCurrentYearValue]
    | v0 :: v1 :: v2 :: rest =>
      simp at hlen
      omega

/-- C2 witness: the selector rules applied at concrete inputs. -/
theorem c2_witness :
    ([(1 : ℚ), 2] ≠ [] ∧ [(1 : ℚ), 2].length < 3) ∧
    pickCurrentYearValue [(1 : ℚ), 2] 4 (some Sec.pl) = some 1 := by
  refine ⟨⟨by decide, by decide⟩, ?_⟩
  have h := c2_theorem.2.1 [(1 : ℚ), 2] (by decide) (by decide)
  simpa using h

/-- C3: in every case other than a 4-column income-statement page the
selector returns the first token; the table extractor picks the column of
the strictly highest header year and reads that cell when it parses; and
the line `Investment deposits 4,134,622 3,820,000` on a 2-column
balance-sheet page resolves to 4134622. -/
theorem c3_theorem :
    (∀ (v0 : ℚ) (rest : List ℚ) (colCount : Nat) (sec : Option Sec),
        ¬(colCount = 4 ∧ sec = some Sec.pl) →
        pickCurrentYearValue (v0 :: rest) colCount sec = some v0) ∧
    (∀ (header : List (List Char)) (idx : Nat),
        detectYearCol header = some idx →
        ∃ y cell, (idx, cell) ∈ header.enum ∧ searchYear20 cell = some y ∧
          ∀ jc ∈ header.enum, ∀ y', searchYear20 jc.2 = some y' → y' ≤ y) ∧
    (∀ (idx : Nat) (row : List (Option String)) (v : ℚ),
        idx < row.length → parseNumberCell (row.getD idx none) = some v →
        tableRowValue (some idx) row = some v) ∧
    (extractRegexCandidates ["Investment deposits 4,134,622 3,820,000"] 1
        (some Sec.bs) 2).map (fun c => (c.metric, c.value))
      = [("investment_deposits", (4134622 : ℚ))] := by
  refine ⟨?_, ?_, ?_, by decide⟩
  · intro v0 rest colCount sec h
    simp [pickCurrentYearValue, h]
  · exact detectYearCol_spec
  · intro idx row v hlt hv
    unfold tableRowValue
    dsimp only
    rw [if_pos hlt, hv]

/-- C3 witness: the non-income-statement selector rule and the year-column
reader applied at concrete inputs. -/
theorem c3_witness :
    (¬((2 : Nat) = 4 ∧ (some Sec.bs : Option Sec) = some Sec.pl) ∧
      detectYearCol (["x", "2025", "2024"].map String.toList) = some 1 ∧
      (1 : Nat) < ([some "d", some "4,134,622", some "3,820,000"] :
        List (Option String)).length ∧
      parseNumberCell (([some "d", some "4,134,622", some "3,820,000"] :
        List (Option String)).getD 1 none) = some 4134622) ∧
    pickCurrentYearValue [(4134622 : ℚ), 3820000] 2 (some Sec.bs) = some 4134622 ∧
    tableRowValue (some 1) [some "d", some "4,134,622", some "3,820,000"]
      = some 4134622 := by
  refine ⟨⟨by decide, by decide, by decide, by decide⟩, ?_, ?_⟩
  · exact c3_theorem.1 4134622 [3820000] 2 (some Sec.bs) (by decide)
  · exact c3_theorem.2.2.1 1 [some "d", some "4,134,622", some "3,820,000"]
      4134622 (by decide) (by decide)

/-- C4: the note-reference pre-filter discards the first extracted token
exactly when its magnitude is below 100 and some later token has magnitude
at least 100; in every other case the token list is unchanged; and the
pre-filter is applied to every extracted line token list before period-value
selection. -/
theorem c4_theorem :
    (∀ (v0 : ℚ) (rest : List ℚ), |v0| < 100 → (∃ v ∈ rest, 100 ≤ |v|) →
        noteRefFilter (v0 :: rest) = rest) ∧
    (∀ (v0 : ℚ) (rest : List ℚ), ¬(|v0| < 100 ∧ ∃ v ∈ rest, 100 ≤ |v|) →
        noteRefFilter (v0 :: rest) = v0 :: rest) ∧
    noteRefFilter [] = [] ∧
    (∀ (line : List Char) (pos : Nat),
        extractLineNumbers line pos = noteRefFilter (rawLineNumbers line pos)) := by
  refine ⟨?_, ?_, rfl, fun _ _ => rfl⟩
  · intro v0 rest hv hex
    obtain ⟨v, hvm, hv100⟩ := hex
    have hrne : rest ≠ [] := by
      intro hr
      subst hr
      exact absurd hvm (List.not_mem_nil v)
    have hany : rest.any (fun v => decide (100 ≤ |v|)) = true :=
      List.any_eq_true.mpr ⟨v, hvm, by simpa using hv100⟩
    simp [noteRefFilter, hv, hany, hrne]
  · intro v0 rest h
    have hcond : ¬(2 ≤ (v0 :: rest).length ∧ |v0| < 100 ∧
        (rest.any (fun v => decide (100 ≤ |v|)) = true)) := by
      rintro ⟨_, hv, hany⟩
      obtain ⟨v, hvm, hv100⟩ := List.any_eq_true.mp hany
      exact h ⟨hv, v, hvm, by simpa using hv100⟩
    simp only [noteRefFilter]
    rw [if_neg]
    exact hcond

/-- C4 witness: the pre-filter applied at concrete token lists. -/
theorem c4_witness :
    (|(8 : ℚ)| < 100 ∧ (∃ v ∈ [(1234 : ℚ), 99], 100 ≤ |v|) ∧
      ¬(|(113272 : ℚ)| < 100 ∧ ∃ v ∈ [(45827 : ℚ)], 100 ≤ |v|)) ∧
    noteRefFilter [(8 : ℚ), 1234, 99] = [1234, 99] ∧
    noteRefFilter [(113272 : ℚ), 45827] = [113272, 45827] := by
  refine ⟨⟨by decide, by decide, by decide⟩, ?_, ?_⟩
  · exact c4_theorem.1 8 [1234, 99] (by decide) (by decide)
  · exact c4_theorem.2.1 113272 [45827] (by decide)

/-- C5: the resolver selects, per metric, a candidate of maximal score,
breaking ties by method priority (table above note above line) and, for
balance-type metrics, by larger absolute value; in particular a table
candidate beats an equal-score text candidate in either arrival order. -/
theorem c5_theorem :
    (∀ (cs : List Candidate) (k : String) (c : Candidate),
        alistGet (bestCandidates cs) k = some c →
          c ∈ cs ∧ c.metric = k ∧
          (∀ x ∈ cs, x.metric = k → x.score ≤ c.score) ∧
          (∀ x ∈ cs, x.metric = k → x.score = c.score →
              METHOD_RANK x.method ≤ METHOD_RANK c.method) ∧
          (k ∈ balanceKeys → ∀ x ∈ cs, x.metric = k → x.score = c.score →
              METHOD_RANK x.method = METHOD_RANK c.method → |x.value| ≤ |c.value|)) ∧
    (METHOD_RANK "regex" < METHOD_RANK "note_block" ∧
      METHOD_RANK "note_block" < METHOD_RANK "table") ∧
    (∀ a b : Candidate, b.metric = a.metric → b.score = a.score →
        a.method = "table" → b.method = "regex" →
        alistGet (bestCandidates [a, b]) a.metric = some a ∧
        alistGet (bestCandidates [b, a]) a.metric = some a) := by
  refine ⟨?_, ⟨by decide, by decide⟩, ?_⟩
  · intro cs k c hget
    obtain ⟨hmet, hmem, hdom⟩ := bestCandidates_spec cs k c hget
    refine ⟨hmem, hmet, ?_, ?_, ?_⟩
    · intro x hx hxm
      exact (hdom x hx hxm).1
    · intro x hx hxm hxs
      exact ((hdom x hx hxm).2 hxs).1
    · intro hk x hx hxm hxs hxr
      exact ((hdom x hx hxm).2 hxs).2 hxr (hxm ▸ hk)
  · intro a b hm hs ha hb
    have hne : ¬a.score < a.score := lt_irrefl _
    constructor
    · show alistGet (insertBest (insertBest [] a) b) a.metric = some a
      have h1 : insertBest [] a = [(a.metric, a)] := by
        unfold insertBest
        simp [alistGet]
      rw [h1]
      unfold insertBest
      rw [hm]
      have h2 : alistGet [(a.metric, a)] a.metric = some a := by
        simp [alistGet]
      rw [h2]
      dsimp only
      have h3 : chooseBetter a b = a := by
        unfold chooseBetter
        rw [hs, ha, hb]
        simp [METHOD_RANK]
      rw [h3]
      simp [alistSet, alistGet]
    · show alistGet (insertBest (insertBest [] b) a) a.metric = some a
      have h1 : insertBest [] b = [(b.metric, b)] := by
        unfold insertBest
        simp [alistGet]
      rw [h1]
      unfold insertBest
      have h2 : alistGet [(b.metric, b)] a.metric = some b := by
        simp [alistGet, hm]
      rw [h2]
      dsimp only
      have h3 : chooseBetter b a = a := by
        unfold chooseBetter
        rw [hs, ha, hb]
        simp [METHOD_RANK]
      rw [h3]
      simp [alistSet, alistGet, hm]

/-- Table candidate of the C5 witness. -/
def c5Table : Candidate :=
  { metric := "fvtoci", value := 9, page := 1, snippet := "t",
    method := "table", score := 3 }

/-- Text candidate of the C5 witness. -/
def c5Regex : Candidate :=
  { metric := "fvtoci", value := 7, page := 2, snippet := "s",
    method := "regex", score := 3 }

/-- C5 witness: an equal-score table candidate beats a text candidate for
the same metric in both arrival orders. -/
theorem c5_witness :
    (c5Regex.metric = c5Table.metric ∧ c5Regex.score = c5Table.score ∧
      c5Table.method = "table" ∧ c5Regex.method = "regex") ∧
    alistGet (bestCandidates [c5Table, c5Regex]) "fvtoci" = some c5Table ∧
    alistGet (bestCandidates [c5Regex, c5Table]) "fvtoci" = some c5Table := by
  refine ⟨⟨rfl, rfl, rfl, rfl⟩, ?_, ?_⟩
  · exact (c5_theorem.2.2 c5Table c5Regex rfl rfl rfl rfl).1
  · exact (c5_theorem.2.2 c5Table c5Regex rfl rfl rfl rfl).2

/-- Candidates used by the C6 counterexample: equal score, equal method,
same non-balance metric, different values. -/
def c6CandA : Candidate :=
  { metric := "investment_income", value := 100, page := 1, snippet := "a",
    method := "regex", score := 3 }

/-- Second candidate of the C6 counterexample. -/
def c6CandB : Candidate :=
  { metric := "investment_income", value := 200, page := 2, snippet := "b",
    method := "regex", score := 3 }

/-- C6 counterexample: the two arrival orders of the same two candidates
resolve `investment_income` to different winners, so the merge is not
order-independent as claimed. -/
theorem c6_counterexample :
    [c6CandA, c6CandB].Perm [c6CandB, c6CandA] ∧
    alistGet (bestCandidates [c6CandA, c6CandB]) "investment_income" ≠
      alistGet (bestCandidates [c6CandB, c6CandA]) "investment_income" := by
  constructor
  · exact List.Perm.swap c6CandB c6CandA []
  · decide

/-- C6 amended: across permutations of the candidate list the winner per
metric carries the same score and method rank (and, for balance metrics, the
same absolute value), but the winning candidate itself may differ when
candidates tie on the comparator. -/
theorem c6_amended_theorem :
    ∀ (cs cs' : List Candidate), cs.Perm cs' → ∀ (k : String) (c c' : Candidate),
      alistGet (bestCandidates cs) k = some c →
      alistGet (bestCandidates cs') k = some c' →
      c.score = c'.score ∧ METHOD_RANK c.method = METHOD_RANK c'.method ∧
        (k ∈ balanceKeys → |c.value| = |c'.value|) := by
  intro cs cs' hperm k c c' hc hc'
  obtain ⟨hmet, hmem, hdom⟩ := bestCandidates_spec cs k c hc
  obtain ⟨hmet', hmem', hdom'⟩ := bestCandidates_spec cs' k c' hc'
  have h1 : candLE c c' := hdom' c (hperm.mem_iff.mp hmem) hmet
  have h2 : candLE c' c := hdom c' (hperm.mem_iff.mpr hmem') hmet'
  obtain ⟨hs, hr, hv⟩ := candLE_antisymm h1 h2
  exact ⟨hs, hr, fun hk => hv (hmet ▸ hk) (hmet' ▸ hk)⟩

/-- C6 witness: the amended invariance applied to a concrete permutation. -/
theorem c6_witness :
    ([c6CandA, c6CandB].Perm [c6CandB, c6CandA] ∧
      alistGet (bestCandidates [c6CandA, c6CandB]) "investment_income"
        = some c6CandA ∧
      alistGet (bestCandidates [c6CandB, c6CandA]) "investment_income"
        = some c6CandB) ∧
    c6CandA.score = c6CandB.score ∧
    METHOD_RANK c6CandA.method = METHOD_RANK c6CandB.method := by
  refine ⟨⟨List.Perm.swap c6CandB c6CandA [], by decide, by decide⟩, ?_⟩
  have h := c6_amended_theorem [c6CandA, c6CandB] [c6CandB, c6CandA]
    (List.Perm.swap c6CandB c6CandA []) "investment_income" c6CandA c6CandB
    (by decide) (by decide)
  exact ⟨h.1, h.2.1⟩

/-- The metrics map of the C1 counterexample: primary resolution assigned
`fvtoci` the value 500. -/
def c1Metrics : List (String × ℚ) := [("fvtoci", 500)]

/-- The note-8 record of the C1 counterexample: a note total is present. -/
def c1Note8 : Note8 := ⟨none, none, none, some 2000000⟩

/-- C1 counterexample: a `fvtoci` entry set by primary resolution to 500 is
overwritten by the note-8 total during note merging, so note extraction does
overwrite a primary-resolved metric for some values. -/
theorem c1_counterexample :
    alistGet c1Metrics "fvtoci" = some 500 ∧
    alistGet (noteMergeStep c1Metrics ⟨none, none, none, none⟩ c1Note8).1 "fvtoci"
      = some 2000000 := by
  decide

/-- C1 amended: the note merge never overwrites a primary-resolved metric
whose name is not a note sub-metric name and not `fvtoci`; a `fvtoci` value
of at least 1000 is also never overwritten; primary resolution only produces
label-dictionary metric names; and the note sub-metric names are disjoint
from those.  (The unamended claim fails only for `fvtoci` values below
1000, as the counterexample shows.) -/
theorem c1_amended_theorem :
    (∀ (m : List (String × ℚ)) (n20 : Note20) (n8 : Note8) (k : String),
        k ∉ noteSubKeys → k ≠ "fvtoci" →
        alistGet (noteMergeStep m n20 n8).1 k = alistGet m k) ∧
    (∀ (m : List (String × ℚ)) (n20 : Note20) (n8 : Note8) (v : ℚ),
        alistGet m "fvtoci" = some v → 1000 ≤ v →
        alistGet (noteMergeStep m n20 n8).1 "fvtoci" = some v) ∧
    (∀ (i : Nat) (p : Page) (s : Option Sec) (c : Candidate),
        c ∈ pageCandidates i p s →
        c.metric ∈ incomeKeys ∨ c.metric ∈ balanceKeys) ∧
    (∀ k ∈ noteSubKeys, k ∉ incomeKeys ∧ k ∉ balanceKeys) := by
  refine ⟨?_, ?_, pageCandidates_metric, by decide⟩
  · intro m n20 n8 k hsub hfv
    simp only [noteSubKeys, List.mem_cons, List.not_mem_nil, or_false] at hsub
    push_neg at hsub
    obtain ⟨h1, h2, h3, h4, h5, h6⟩ := hsub
    unfold noteMergeStep
    rw [fvtociFallback_get_ne _ _ _ hfv]
    rw [applyNote8Sub_get_ne _ _ _ h4 h5 h6]
    exact applyNote20_get_ne _ _ _ h1 h2 h3
  · intro m n20 n8 v hv h1000
    unfold noteMergeStep
    have hpre : alistGet (applyNote8Sub (applyNote20 m n20) n8) "fvtoci" = some v := by
      rw [applyNote8Sub_get_ne _ _ _ (by decide) (by decide) (by decide)]
      rw [applyNote20_get_ne _ _ _ (by decide) (by decide) (by decide)]
      exact hv
    rw [fvtociFallback_keep _ n8 v hpre (not_lt.mpr h1000)]
    exact hpre

/-- C1 witness: the amended preservation rules applied at concrete inputs. -/
theorem c1_witness :
    (("trading_commission" : String) ∉ noteSubKeys ∧
      ("trading_commission" : String) ≠ "fvtoci" ∧
      alistGet [("trading_commission", (402951 : ℚ)), ("fvtoci", 1470289)]
        "fvtoci" = some 1470289 ∧ (1000 : ℚ) ≤ 1470289) ∧
    alistGet (noteMergeStep [("trading_commission", (402951 : ℚ)), ("fvtoci", 1470289)]
        ⟨some 192248, none, none, some 221239⟩ c1Note8).1 "trading_commission"
      = some 402951 ∧
    alistGet (noteMergeStep [("trading_commission", (402951 : ℚ)), ("fvtoci", 1470289)]
        ⟨some 192248, none, none, some 221239⟩ c1Note8).1 "fvtoci"
      = some 1470289 := by
  refine ⟨⟨by decide, by decide, by decide, by decide⟩, ?_, ?_⟩
  · have h := c1_amended_theorem.1
      [("trading_commission", (402951 : ℚ)), ("fvtoci", 1470289)]
      ⟨some 192248, none, none, some 221239⟩ c1Note8 "trading_commission"
      (by decide) (by decide)
    rw [h]
    decide
  · exact c1_amended_theorem.2.1
      [("trading_commission", (402951 : ℚ)), ("fvtoci", 1470289)]
      ⟨some 192248, none, none, some 221239⟩ c1Note8 1470289 (by decide) (by decide)

/-- C9 counterexample: a source that opens but yields no pages does not
raise — the parse runs to completion and returns a result holding only the
default reporting period — contradicting the claim that a document yielding
no pages aborts the call. -/
theorem c9_counterexample :
    parsePdfFinancials (some []) =
      Except.ok
        { metrics := [("period_months", (12 : ℚ))], audit := [], items := [],
          note20 := ⟨none, none, none, none⟩, note8 := ⟨none, none, none, none⟩,
          warnings := [] } := by
  rfl

/-- C9 amended: the parse call fails exactly when the source cannot be
opened; any page list — including the empty one — yields a normal result,
with every other failure mode degrading to absent entries. -/
theorem c9_amended_theorem :
    (∀ doc : Option (List Page), (parsePdfFinancials doc).isOk = doc.isSome) ∧
    parsePdfFinancials none = Except.error DocumentReadError.cannotOpen := by
  refine ⟨?_, rfl⟩
  intro doc
  cases doc <;> rfl

/-- C10: when the resolved headline is absent or zero, validation emits no
warnings at all; and a note-stated total equal to zero is never compared
against the headline (every emitted warning is a breakdown-sum warning). -/
theorem c10_theorem :
    (∀ n : Note20, validateReconciliation none n = []) ∧
    (∀ n : Note20, validateReconciliation (some 0) n = []) ∧
    (∀ (h : ℚ) (n : Note20), n.total = some 0 →
        ∀ w ∈ validateReconciliation (some h) n, w.kind = WarnKind.breakdownSum) := by
  refine ⟨fun n => rfl, fun n => by simp [validateReconciliation], ?_⟩
  intro h n ht w hw
  unfold validateReconciliation at hw
  dsimp only at hw
  by_cases h0 : h = 0
  · rw [if_pos h0] at hw
    exact absurd hw (List.not_mem_nil w)
  · rw [if_neg h0] at hw
    rw [ht] at hw
    dsimp only at hw
    rw [if_pos rfl] at hw
    rw [List.nil_append] at hw
    split_ifs at hw with h1 h2
    · rcases List.mem_singleton.mp hw with rfl
      rfl
    · exact absurd hw (List.not_mem_nil w)
    · exact absurd hw (List.not_mem_nil w)

/-- Evaluation of the reconciliation validator on literal scenario D: a
breakdown summing to 221239 against a headline of 300000. -/
theorem validate_scenario_d :
    validateReconciliation (some 300000) ⟨some 192248, some 14858, some 14133, none⟩
      = [⟨WarnKind.breakdownSum, 221239, 300000, 78761⟩] := by
  unfold validateReconciliation
  dsimp only
  rw [if_neg (by norm_num : ¬(300000 : ℚ) = 0)]
  have hb : bkdnSum ⟨some 192248, some 14858, some 14133, none⟩ = 221239 := by
    norm_num [bkdnSum]
  rw [hb]
  rw [if_pos (by norm_num : (0 : ℚ) < 221239)]
  have htol : pyMax (|(300000 : ℚ)| * (0.005 : ℚ)) 2 = 1500 := by
    norm_num [pyMax]
  have hdiff : |(300000 : ℚ) - 221239| = 78761 := by norm_num
  rw [htol, hdiff]
  rw [if_pos (by norm_num : (1500 : ℚ) < 78761)]
  rfl

/-- C7: with a nonzero headline, a warning naming the compared values and
their delta is emitted for the note-stated total, and separately for the
breakdown sum, exactly when that figure differs from the headline by more
than `max(0.5% of |headline|, 2)`; and literal scenario D (breakdown 221239,
headline 300000) yields exactly one warning with delta 78761. -/
theorem c7_theorem :
    (∀ (h t : ℚ) (n : Note20), h ≠ 0 → n.total = some t → t ≠ 0 →
        (validateReconciliation (some h) n).filter
            (fun w => w.kind = WarnKind.noteTotal)
          = if pyMax (|h| * (0.005 : ℚ)) 2 < |h - t|
            then [⟨WarnKind.noteTotal, t, h, |h - t|⟩] else []) ∧
    (∀ (h : ℚ) (n : Note20), h ≠ 0 → 0 < bkdnSum n →
        (validateReconciliation (some h) n).filter
            (fun w => w.kind = WarnKind.breakdownSum)
          = if pyMax (|h| * (0.005 : ℚ)) 2 < |h - bkdnSum n|
            then [⟨WarnKind.breakdownSum, bkdnSum n, h, |h - bkdnSum n|⟩] else []) ∧
    validateReconciliation (some 300000) ⟨some 192248, some 14858, some 14133, none⟩
      = [⟨WarnKind.breakdownSum, 221239, 300000, 78761⟩] := by
  refine ⟨?_, ?_, validate_scenario_d⟩
  · intro h t n hne ht ht0
    unfold validateReconciliation
    dsimp only
    rw [if_neg hne, ht]
    dsimp only
    rw [if_neg ht0]
    rw [List.filter_append]
    split_ifs <;> simp [List.filter]
  · intro h n hne hbk
    unfold validateReconciliation
    dsimp only
    rw [if_neg hne]
    rw [List.filter_append]
    rw [if_pos hbk]
    cases ht : n.total with
    | none =>
      split_ifs <;> simp [List.filter]
    | some t =>
      dsimp only
      split_ifs <;> simp [List.filter]

/-- C7 witness: the breakdown comparison applied at literal scenario D. -/
theorem c7_witness :
    ((300000 : ℚ) ≠ 0 ∧
      0 < bkdnSum ⟨some 192248, some 14858, some 14133, none⟩) ∧
    (validateReconciliation (some 300000)
        ⟨some 192248, some 14858, some 14133, none⟩).filter
        (fun w => w.kind = WarnKind.breakdownSum)
      = if pyMax (|(300000 : ℚ)| * (0.005 : ℚ)) 2
            < |(300000 : ℚ) - bkdnSum ⟨some 192248, some 14858, some 14133, none⟩|
        then [⟨WarnKind.breakdownSum,
                bkdnSum ⟨some 192248, some 14858, some 14133, none⟩,
                300000,
                |(300000 : ℚ) - bkdnSum ⟨some 192248, some 14858, some 14133, none⟩|⟩]
        else [] := by
  refine ⟨⟨by norm_num, by norm_num [bkdnSum]⟩, ?_⟩
  exact c7_theorem.2.1 300000 ⟨some 192248, some 14858, some 14133, none⟩
    (by norm_num) (by norm_num [bkdnSum])

/-- A note-20 sub-metric, once set, is never changed by processing a further
line (the first-match-wins guards of the keyword chain). -/
theorem note20Step_preserve (s : Note20) (line : List Char) (f : N20Fld) (v : ℚ)
    (hv : n20Get s f = some v) : n20Get (note20Step s line) f = some v := by
  cases hn : noteLineNums line with
  | nil =>
    have hs : note20Step s line = s := by
      unfold note20Step
      rw [hn]
    rw [hs]
    exact hv
  | cons val tl =>
    have hs : note20Step s line =
        (if (containsSub "from investment deposits".toList (pyLower line)
              || containsSub "from deposits".toList (pyLower line))
            ∧ s.deposits = none then
          { s with deposits := some val }
        else if containsSub "amortised cost".toList (pyLower line)
            ∧ s.amortisedCost = none then
          { s with amortisedCost := some val }
        else if (containsSub "fvtoci".toList (pyLower line)
              || containsSub "fvoci".toList (pyLower line)
              || containsSub "fair value through other comprehensive".toList (pyLower line))
            ∧ s.fvtoci = none then
          { s with fvtoci := some val }
        else s) := by
      unfold note20Step
      rw [hn]
    rw [hs]
    split_ifs <;> cases f <;> simp_all [n20Get]

/-- A note-8 sub-metric, once set, is never changed by processing a further
line. -/
theorem note8Step_preserve (s : Note8) (line : List Char) (f : N8Fld) (v : ℚ)
    (hv : n8Get s f = some v) : n8Get (note8Step s line) f = some v := by
  cases hn : note8LineNums line with
  | nil =>
    have hs : note8Step s line = s := by
      unfold note8Step
      rw [hn]
    rw [hs]
    exact hv
  | cons val tl =>
    have hs : note8Step s line =
        (if containsSub "equity securities".toList (pyLower line)
            ∧ s.equity = none then
          { s with equity := some val }
        else if containsSub "managed fund".toList (pyLower line)
            ∧ s.funds = none then
          { s with funds := some val }
        else if containsSub "investment in sukuk".toList (pyLower line)
            ∧ s.sukuk = none then
          { s with sukuk := some val }
        else s) := by
      unfold note8Step
      rw [hn]
    rw [hs]
    split_ifs <;> cases f <;> simp_all [n8Get]

/-- C8: note-line sub-metric extraction filters out tokens of magnitude
below 100 and year-range tokens (2000-2099) and takes the first remaining
token as the value; any field a line changes is set to that first token; and
for each sub-metric only the first matching line sets the value — later
lines never change a set field. -/
theorem c8_theorem :
    (∀ line : List Char,
        noteLineNums line =
          (((findNumTokens line).filterMap parseNumberL).filter
              (fun n => 100 ≤ |n|)).filter (fun n => ¬(2000 ≤ n ∧ n ≤ 2099))) ∧
    (∀ line : List Char, note8LineNums line = noteLineNums line) ∧
    (∀ (s : Note20) (line : List Char) (f : N20Fld),
        n20Get (note20Step s line) f ≠ n20Get s f →
        n20Get (note20Step s line) f = (noteLineNums line).head?) ∧
    (∀ (lines : List (List Char)) (s : Note20) (f : N20Fld) (v : ℚ),
        n20Get s f = some v →
        n20Get (lines.foldl note20Step s) f = some v) ∧
    (∀ (s : Note8) (line : List Char) (f : N8Fld),
        n8Get (note8Step s line) f ≠ n8Get s f →
        n8Get (note8Step s line) f = (note8LineNums line).head?) ∧
    (∀ (lines : List (List Char)) (s : Note8) (f : N8Fld) (v : ℚ),
        n8Get s f = some v →
        n8Get (lines.foldl note8Step s) f = some v) := by
  refine ⟨fun line => rfl, ?_, ?_, ?_, ?_, ?_⟩
  · intro line
    unfold note8LineNums noteLineNums
    dsimp only
    split_ifs with h
    · rw [h]
      rfl
    · rfl
  · intro s line f hne
    cases hn : noteLineNums line with
    | nil =>
      have hs : note20Step s line = s := by
        unfold note20Step
        rw [hn]
      rw [hs] at hne
      exact absurd rfl hne
    | cons val tl =>
      have hs : note20Step s line =
          (if (containsSub "from investment deposits".toList (pyLower line)
                || containsSub "from deposits".toList (pyLower line))
              ∧ s.deposits = none then
            { s with deposits := some val }
          else if containsSub "amortised cost".toList (pyLower line)
              ∧ s.amortisedCost = none then
            { s with amortisedCost := some val }
          else if (containsSub "fvtoci".toList (pyLower line)
                || containsSub "fvoci".toList (pyLower line)
                || containsSub "fair value through other comprehensive".toList (pyLower line))
              ∧ s.fvtoci = none then
            { s with fvtoci := some val }
          else s) := by
        unfold note20Step
        rw [hn]
      rw [hs] at hne ⊢
      split_ifs at hne ⊢ <;> cases f <;> simp_all [n20Get]
  · intro lines
    induction lines with
    | nil => intro s f v hv; simpa using hv
    | cons l ls ih =>
      intro s f v hv
      rw [List.foldl_cons]
      exact ih (note20Step s l) f v (note20Step_preserve s l f v hv)
  · intro s line f hne
    cases hn : note8LineNums line with
    | nil =>
      have hs : note8Step s line = s := by
        unfold note8Step
        rw [hn]
      rw [hs] at hne
      exact absurd rfl hne
    | cons val tl =>
      have hs : note8Step s line =
          (if containsSub "equity securities".toList (pyLower line)
              ∧ s.equity = none then
            { s with equity := some val }
          else if containsSub "managed fund".toList (pyLower line)
              ∧ s.funds = none then
            { s with funds := some val }
          else if containsSub "investment in sukuk".toList (pyLower line)
              ∧ s.sukuk = none then
            { s with sukuk := some val }
          else s) := by
        unfold note8Step
        rw [hn]
      rw [hs] at hne ⊢
      split_ifs at hne ⊢ <;> cases f <;> simp_all [n8Get]
  · intro lines
    induction lines with
    | nil => intro s f v hv; simpa using hv
    | cons l ls ih =>
      intro s f v hv
      rw [List.foldl_cons]
      exact ih (note8Step s l) f v (note8Step_preserve s l f v hv)

/-- C8 witness: a concrete note line sets the deposits sub-metric to the
first filtered token, and a set field survives further lines. -/
theorem c8_witness :
    (n20Get (note20Step ⟨none, none, none, none⟩
          "Income from investment deposits 192,248 176,000".toList) N20Fld.deposits
        ≠ n20Get (⟨none, none, none, none⟩ : Note20) N20Fld.deposits ∧
      n20Get (⟨some 192248, none, none, none⟩ : Note20) N20Fld.deposits
        = some 192248) ∧
    n20Get (note20Step ⟨none, none, none, none⟩
        "Income from investment deposits 192,248 176,000".toList) N20Fld.deposits
      = (noteLineNums "Income from investment deposits 192,248 176,000".toList).head? ∧
    n20Get (["Income from investment deposits 99,999 1".toList].foldl note20Step
        ⟨some 192248, none, none, none⟩) N20Fld.deposits = some 192248 := by
  refine ⟨⟨by decide, by decide⟩, ?_, ?_⟩
  · exact c8_theorem.2.2.1 ⟨none, none, none, none⟩
      "Income from investment deposits 192,248 176,000".toList N20Fld.deposits
      (by decide)
  · exact c8_theorem.2.2.2.1 ["Income from investment deposits 99,999 1".toList]
      ⟨some 192248, none, none, none⟩ N20Fld.deposits 192248 (by decide)

/-- C10 witness: a zero note total is never compared against the headline,
applied at a concrete headline and breakdown. -/
theorem c10_witness :
    ((⟨some 192248, some 14858, some 14133, some 0⟩ : Note20).total = some 0) ∧
    ∀ w ∈ validateReconciliation (some 300000)
        ⟨some 192248, some 14858, some 14133, some 0⟩,
      w.kind = WarnKind.breakdownSum :=
  ⟨rfl, c10_theorem.2.2 300000 ⟨some 192248, some 14858, some 14133, some 0⟩ rfl⟩

end DFM
